import Mathlib

/-!
Verification development for the MangaPark provider adapter (second revision
of the source file: the `Provider` class with `buildUrl`, `parseChapterNumber`,
`search`, `findChapters`, `findChapterPages`).

Modelling conventions:
* JavaScript strings are modelled as `List Char` (`Str`).
* The JavaScript regular expressions used by the adapter are anchored or
  leftmost-search patterns whose quantifiers never need backtracking on the
  character classes involved (whitespace runs, non-whitespace runs, digit
  runs are mutually exclusive with the literal that follows them), so each
  regex is translated as a greedy maximal-run scanner.
* `parseFloat(s).toString()` on a captured digit string with optional decimal
  part is modelled faithfully through IEEE-754 binary64: the token's exact
  decimal value is rounded to the nearest double (ties to even, overflow to
  Infinity, subnormals included), and the double is rendered per ECMA-262
  `Number::toString` (shortest decimal digit string that rounds back to the
  double, ties broken towards the closer value and then the even digit
  string, with the plain/exponent formatting rules).  All computations are
  over `Nat`/`Int` so they evaluate inside the kernel.
* `new Date(t * 1000).toISOString()` is abstracted to the instant
  `t * 1000` in milliseconds (`Option Int`); no claim concerns the textual
  rendering of the date, only its presence and underlying value.
* Optional / absent JSON fields are `Option`; JavaScript truthiness tests on
  strings compare against the empty string, on numbers against `0`.
-/

set_option maxRecDepth 100000

namespace Mangapark

abbrev Str := List Char

/-- JavaScript `\s` character class (the regex flavour used by the source). -/
def jsSpace (c : Char) : Bool :=
  c = ' ' || c = '\t' || c = '\n' || c = '\r' || c = '\x0b' || c = '\x0c' ||
  c = '\u00a0' || c = '\u1680' || ('\u2000' ≤ c && c ≤ '\u200a') ||
  c = '\u2028' || c = '\u2029' || c = '\u202f' || c = '\u205f' ||
  c = '\u3000' || c = '\ufeff'

/-- JavaScript `\d` character class. -/
def jsDigit (c : Char) : Bool := '0' ≤ c && c ≤ '9'

/-- Case-insensitive character comparison (`/i` flag). -/
def ciEq (a b : Char) : Bool := a.toLower = b.toLower

/-- Case-insensitively match the literal `pat` at the front of `s`,
returning the rest of `s` on success. -/
def ciStrip : Str → Str → Option Str
  | [], s => some s
  | _ :: _, [] => none
  | p :: ps, c :: cs => if ciEq p c then ciStrip ps cs else none

/-- Origin of the service (`private readonly baseUrl = "https://mangapark.io"`). -/
def baseUrl : Str := "https://mangapark.io".data

/-- `buildUrl(path)`:
```
if (!path) return ""
if (path.startsWith('http')) return path
if (path.startsWith('/')) return `${this.baseUrl}${path}`
return path
``` -/
def buildUrl (path : Str) : Str :=
  if path = [] then []
  else if "http".data.isPrefixOf path then path
  else if "/".data.isPrefixOf path then baseUrl ++ path
  else path

/-- `dname.replace(/^Vol\.\s*\S+\s+/i, '')`: strip a leading volume prefix.
The regex is anchored; `\s*`, `\S+`, `\s+` take maximal runs (backtracking
cannot help because each run's continuation starts with a character of the
complementary class). On no match, `replace` returns the string unchanged. -/
def stripVol (s : Str) : Str :=
  match ciStrip "Vol.".data s with
  | none => s
  | some r1 =>
    let r2 := r1.dropWhile jsSpace
    let tok := r2.takeWhile (fun c => !jsSpace c)
    if tok = [] then s
    else
      let r3 := r2.dropWhile (fun c => !jsSpace c)
      if r3.takeWhile jsSpace = [] then s
      else r3.dropWhile jsSpace

/-- `cleaned.match(/^Chapter\s+Bonus/i)` (as a Boolean: the source only tests
whether the match succeeded). -/
def isChapterBonus (s : Str) : Bool :=
  match ciStrip "Chapter".data s with
  | none => false
  | some r =>
    if r.takeWhile jsSpace = [] then false
    else (ciStrip "Bonus".data (r.dropWhile jsSpace)).isSome

/-- The `(?:Ch\.|Chapter)` alternation at one position (ordered: `Ch\.` first;
the two branches are mutually exclusive at the third character). -/
def chapterKeywordAt (s : Str) : Option Str :=
  match ciStrip "Ch.".data s with
  | some r => some r
  | none => ciStrip "Chapter".data s

/-- After the keyword: `\s*(\d+(?:\.\d+)?)`.  Returns the captured group. -/
def numberAfterKeyword (r : Str) : Option Str :=
  let r2 := r.dropWhile jsSpace
  let ds := r2.takeWhile jsDigit
  if ds = [] then none
  else
    match r2.dropWhile jsDigit with
    | '.' :: r4 =>
      let fs := r4.takeWhile jsDigit
      if fs = [] then some ds else some (ds ++ '.' :: fs)
    | _ => some ds

/-- `cleaned.match(/(?:Ch\.|Chapter)\s*(\d+(?:\.\d+)?)/i)`: leftmost search,
returning the captured number string. -/
def findChapterNum : Str → Option Str
  | [] => none
  | c :: rest =>
    match chapterKeywordAt (c :: rest) with
    | some r =>
      match numberAfterKeyword r with
      | some n => some n
      | none => findChapterNum rest
    | none => findChapterNum rest

/-! ### IEEE-754 binary64 model of `parseFloat(...).toString()`

The captured group always has the shape `\d+(\.\d+)?`, so its exact value is
a nonnegative rational `a / 10^f`.  `parseFloat` rounds it to the nearest
IEEE-754 binary64 value (ties to even, subnormals, overflow to `Infinity`),
and `Number::toString` renders the double as the shortest decimal digit
string that rounds back to it (ECMA-262: `k` minimal with `𝔽(s·10^(n−k))`
equal to the double, ties by closeness then even `s`), formatted plainly for
decimal exponents in `(−6, 21]` and in exponent notation otherwise.  All
arithmetic is on `Nat`/`Int`; fractions are kept unnormalised, a double is a
pair `(m, q)` of value `m·2^q`, and `none` stands for `Infinity`. -/

/-- `⌊log₂ n⌋` with explicit fuel (any `fuel ≥ n` is exact; `0` for `n = 0`). -/
def log2F : ℕ → ℕ → ℕ
  | 0, _ => 0
  | f + 1, n => if n < 2 then 0 else log2F f (n / 2) + 1

/-- `⌊log₁₀ n⌋` with explicit fuel (any `fuel ≥ n` is exact; `0` for `n = 0`). -/
def log10F : ℕ → ℕ → ℕ
  | 0, _ => 0
  | f + 1, n => if n < 10 then 0 else log10F f (n / 10) + 1

def natDigitsAux : ℕ → ℕ → Str → Str
  | 0, _, acc => acc
  | f + 1, n, acc =>
    if n = 0 then acc else natDigitsAux f (n / 10) (Char.ofNat (48 + n % 10) :: acc)

/-- Decimal digit string of a natural number. -/
def natDigits (n : ℕ) : Str :=
  if n = 0 then ['0'] else natDigitsAux n n []

/-- Value of a digit string as a natural number (the digit-parsing step). -/
def digitsToNat (l : Str) : Nat :=
  l.foldl (fun n c => 10 * n + (c.toNat - 48)) 0

/-- The binary exponent `E` with `2^E ≤ a/b < 2^(E+1)`, for `a, b ≥ 1`. -/
def binExpF (a b : ℕ) : ℤ :=
  if b ≤ a then (log2F a (a / b) : ℤ)
  else
    let t := log2F b (b / a)
    if b ≤ a * 2 ^ t then -(t : ℤ) else -(t : ℤ) - 1

/-- The decimal exponent `n` with `10^(n−1) ≤ a/b < 10^n`, for `a, b ≥ 1`. -/
def decExpF (a b : ℕ) : ℤ :=
  if b ≤ a then (log10F a (a / b) : ℤ) + 1
  else
    let t := log10F b (b / a)
    if b ≤ a * 10 ^ t then 1 - (t : ℤ) else -(t : ℤ)

/-- Round the nonnegative rational `a/b` to the nearest IEEE-754 binary64
value, ties to even; `none` is overflow to `Infinity`.  The significand is
taken at scale `q = max (E − 52) (−1074)` (normal / subnormal), and the
result overflows exactly when the rounded value reaches `2^1024`.  (The
`q ≤ 900` fast path cannot overflow since `m ≤ 2^53`.) -/
def roundToDouble (a b : ℕ) : Option (ℕ × ℤ) :=
  if a = 0 then some (0, 0)
  else
    let E := binExpF a b
    let q := max (E - 52) (-1074)
    let num := a * 2 ^ (-q).toNat
    let den := b * 2 ^ q.toNat
    let m0 := num / den
    let r2 := 2 * (num % den)
    let m := if den < r2 then m0 + 1
      else if r2 < den then m0
      else if m0 % 2 = 0 then m0 else m0 + 1
    if q ≤ 900 then some (m, q)
    else if 2 ^ (1024 - q).toNat ≤ m then none
    else some (m, q)

/-- Value equality of two `(m, q)` pairs (`m₁·2^q₁ = m₂·2^q₂`). -/
def eqVal (x y : ℕ × ℤ) : Bool :=
  if x.2 ≤ y.2 then x.1 = y.1 * 2 ^ (y.2 - x.2).toNat
  else x.1 * 2 ^ (x.2 - y.2).toNat = y.1

/-- Does the `k`-digit candidate `s·10^(nn−k)` round back to the double `v`
(with `s` in the `k`-digit range)? -/
def validCand (v : ℕ × ℤ) (k : ℕ) (s : ℕ) (nn : ℤ) : Bool :=
  decide (10 ^ (k - 1) ≤ s) && decide (s < 10 ^ k) &&
    (match roundToDouble (s * 10 ^ (nn - (k : ℤ)).toNat) (10 ^ ((k : ℤ) - nn).toNat) with
     | some w => eqVal w v
     | none => false)

/-- `|s·10^(nn−k) − v|` as an unnormalised fraction, for comparing candidates. -/
def candDist (v : ℕ × ℤ) (k : ℕ) (s : ℕ) (nn : ℤ) : ℕ × ℕ :=
  let e := nn - (k : ℤ)
  let ns : ℤ := (s : ℤ) * 10 ^ e.toNat * 2 ^ (-v.2).toNat
  let nv : ℤ := (v.1 : ℤ) * 2 ^ (v.2).toNat * 10 ^ (-e).toNat
  ((ns - nv).natAbs, 10 ^ (-e).toNat * 2 ^ (-v.2).toNat)

/-- Among the two `k`-digit candidates, pick the one that rounds back to `v`;
if both do, the one closer to `v`, ties to the even significand. -/
def pickCand (v : ℕ × ℤ) (k : ℕ) (c1 c2 : ℕ × ℤ) : Option (ℕ × ℤ) :=
  match validCand v k c1.1 c1.2, validCand v k c2.1 c2.2 with
  | true, false => some c1
  | false, true => some c2
  | false, false => none
  | true, true =>
    let d1 := candDist v k c1.1 c1.2
    let d2 := candDist v k c2.1 c2.2
    if d1.1 * d2.2 < d2.1 * d1.2 then some c1
    else if d2.1 * d1.2 < d1.1 * d2.2 then some c2
    else if c1.1 % 2 = 0 then some c1 else some c2

/-- Search the minimal digit count `k` (from `1`): the candidates are the
floor and ceiling of `v·10^(k−n)` (a carry into `10^k` becomes the single
`k`-digit value at decimal exponent `n+1`).  17 digits always round-trip a
binary64 value, so fuel `17` never runs out. -/
def searchRep (v : ℕ × ℤ) (n : ℤ) : ℕ → ℕ → Option (ℕ × ℤ × ℕ)
  | 0, _ => none
  | fuel + 1, k =>
    let c1 := (v.1 * 2 ^ (v.2).toNat * 10 ^ ((k : ℤ) - n).toNat)
      / (2 ^ (-v.2).toNat * 10 ^ (n - (k : ℤ)).toNat)
    let pair := if c1 + 1 = 10 ^ k then ((c1, n), (10 ^ (k - 1), n + 1))
      else ((c1, n), (c1 + 1, n))
    match pickCand v k pair.1 pair.2 with
    | some (s, nn) => some (s, nn, k)
    | none => searchRep v n fuel (k + 1)

/-- ECMA-262 `Number::toString` formatting of the chosen `(s, k, n)`:
plain digit string with padding zeros for `k ≤ n ≤ 21`, embedded point for
`0 < n ≤ 21`, leading `0.0…0` for `−5 ≤ n ≤ 0`, exponent notation
(`d.dddde±x`) otherwise. -/
def formatRep (s : ℕ) (k : ℕ) (nn : ℤ) : Str :=
  let S := natDigits s
  if (k : ℤ) ≤ nn ∧ nn ≤ 21 then S ++ List.replicate (nn - (k : ℤ)).toNat '0'
  else if 0 < nn ∧ nn ≤ 21 then S.take nn.toNat ++ '.' :: S.drop nn.toNat
  else if -5 ≤ nn ∧ nn ≤ 0 then '0' :: '.' :: (List.replicate (-nn).toNat '0' ++ S)
  else
    let e := nn - 1
    let mant := if k = 1 then S else S.take 1 ++ '.' :: S.drop 1
    mant ++ 'e' :: (if 0 ≤ e then '+' else '-') :: natDigits e.natAbs

/-- `Number::toString` (base 10) of a nonnegative double (`none` = Infinity). -/
def jsDoubleToString (d : Option (ℕ × ℤ)) : Str :=
  match d with
  | none => "Infinity".data
  | some v =>
    if v.1 = 0 then ['0']
    else
      let n := decExpF (v.1 * 2 ^ (v.2).toNat) (2 ^ (-v.2).toNat)
      match searchRep v n 17 1 with
      | some (s, nn, k) => formatRep s k nn
      | none => ['0']

/-- Numerator of the captured token's exact value (`digits` before and after
the point, read as one number). -/
def tokNum (tok : Str) : ℕ :=
  digitsToNat (tok.takeWhile (fun c => c ≠ '.')
    ++ ((tok.dropWhile (fun c => c ≠ '.')).tail))

/-- Denominator of the captured token's exact value (`10^(#fraction digits)`). -/
def tokDen (tok : Str) : ℕ :=
  10 ^ ((tok.dropWhile (fun c => c ≠ '.')).tail).length

/-- `parseFloat(tok).toString()` for a captured `\d+(\.\d+)?` token: round
the token's exact decimal value to the nearest binary64 and render it. -/
def jsRenderNum (tok : Str) : Str :=
  jsDoubleToString (roundToDouble (tokNum tok) (tokDen tok))

/-! ### Specification-side canonical rendering

`canonDecimal` renders the claim language's "canonical decimal rendering of
the number": drop leading zeros of the integer part and trailing zeros of
the fractional part.  It agrees with `jsRenderNum` exactly when the float
round-trip of the token is lossless (the hypothesis of the amended C1). -/

/-- Drop leading `'0'` characters of a digit string, keeping at least one
digit. -/
def dropLeadZeros (l : Str) : Str :=
  match l.dropWhile (fun c => c = '0') with
  | [] => ['0']
  | r => r

/-- Drop trailing `'0'` characters of a fractional digit string. -/
def dropTrailZeros (l : Str) : Str :=
  (l.reverse.dropWhile (fun c => c = '0')).reverse

/-- The canonical decimal rendering of a token of shape `digits` or
`digits.digits`. -/
def canonDecimal (numStr : Str) : Str :=
  let ip := numStr.takeWhile (fun c => c ≠ '.')
  let ipC := dropLeadZeros ip
  match numStr.dropWhile (fun c => c ≠ '.') with
  | '.' :: fs =>
    match dropTrailZeros fs with
    | [] => ipC
    | fsC => ipC ++ '.' :: fsC
  | _ => ipC

/-- `parseChapterNumber(dname)` of the second revision:
```
if (!dname) return ""
let cleaned = dname.replace(/^Vol\.\s*\S+\s+/i, '')
if (cleaned.match(/^Chapter\s+Bonus/i)) return "Chapter Bonus"
const chapterMatch = cleaned.match(/(?:Ch\.|Chapter)\s*(\d+(?:\.\d+)?)/i)
if (chapterMatch && chapterMatch[1]) {
  const parsed = parseFloat(chapterMatch[1])
  return parsed.toString()
}
return dname
``` -/
def parseChapterNumber (dname : Str) : Str :=
  if dname = [] then []
  else
    let cleaned := stripVol dname
    if isChapterBonus cleaned then "Chapter Bonus".data
    else
      match findChapterNum cleaned with
      | some n => jsRenderNum n
      | none => dname

/-! ### JavaScript truthiness helpers -/

/-- `a || b` on two possibly-absent strings (falsy: `undefined` and `""`). -/
def strOr (a b : Option Str) : Option Str :=
  match a with
  | some s => if s = [] then b else some s
  | none => b

/-- `a || b` on two possibly-absent numbers (falsy: `undefined` and `0`). -/
def numOr (a b : Option Int) : Option Int :=
  match a with
  | some x => if x = 0 then b else some x
  | none => b

/-! ### Response shapes (nested optional fields, as accessed by `?.`) -/

/-- `userNode { data { name } }`. -/
structure UserNodeData where
  name : Option Str
deriving DecidableEq

structure UserNode where
  data : Option UserNodeData
deriving DecidableEq

/-- One chapter record of the `get_comicChapterList` response. -/
structure ChapterData where
  id : Option Str
  dname : Option Str
  title : Option Str
  dateCreate : Option Int
  dateModify : Option Int
  urlPath : Option Str
  srcTitle : Option Str
  userNode : Option UserNode
deriving DecidableEq

structure ChapterItem where
  data : Option ChapterData
deriving DecidableEq

structure ChaptersData where
  get_comicChapterList : Option (List ChapterItem)
deriving DecidableEq

structure ChaptersResponse where
  data : Option ChaptersData
deriving DecidableEq

/-- One item of the `get_searchComic` response. -/
structure SearchData where
  id : Option Str
  name : Option Str
  altNames : Option (List Str)
  urlPath : Option Str
  urlCoverOri : Option Str
deriving DecidableEq

structure SearchItem where
  data : Option SearchData
deriving DecidableEq

structure SearchComic where
  items : Option (List SearchItem)
deriving DecidableEq

structure SearchResponseData where
  get_searchComic : Option SearchComic
deriving DecidableEq

structure SearchResponse where
  data : Option SearchResponseData
deriving DecidableEq

/-- `get_chapterNode { data { imageFile { urlList } } }` response. -/
structure ImageFile where
  urlList : Option (List Str)
deriving DecidableEq

structure ChapterNodeData where
  imageFile : Option ImageFile
deriving DecidableEq

structure ChapterNode where
  data : Option ChapterNodeData
deriving DecidableEq

structure PagesResponse where
  data : Option ChapterNode
deriving DecidableEq

/-! ### Output shapes -/

structure SearchResult where
  id : Option Str
  title : Str
  synonyms : Option (List Str)
  image : Option Str
  year : Option Int
deriving DecidableEq

/-- `updatedAt` carries the instant `timestamp * 1000` in milliseconds (the
ISO-8601 rendering of `new Date(...)` is abstracted; no claim depends on it). -/
structure ChapterDetails where
  id : Option Str
  url : Str
  title : Option Str
  chapter : Str
  index : Nat
  language : Option Str
  scanlator : Option Str
  updatedAt : Option Int
deriving DecidableEq

structure ChapterPage where
  url : Str
  index : Nat
  headers : List (Str × Str)
deriving DecidableEq

/-- `DEFAULT_HEADERS` of the second revision. -/
def DEFAULT_HEADERS : List (Str × Str) :=
  [("Content-Type".data, "application/json".data), ("Referer".data, baseUrl)]

/-! ### Transport boundary

`graphqlRequest` performs the single network call.  Its observable outcome for
response processing is either a parsed body or a failure (thrown on non-ok
status, network error, or `response.json()` failure); the three public
operations catch every failure and return `[]`. -/

inductive TransportResult (α : Type) where
  | success : α → TransportResult α
  | httpError : Nat → TransportResult α
  | networkError : TransportResult α
  | jsonError : TransportResult α
deriving DecidableEq

/-- `true` iff the outcome is not a successfully parsed body. -/
def TransportResult.isFailure {α : Type} : TransportResult α → Bool
  | .success _ => false
  | _ => true

/-- `graphqlRequest`: throws (`Except.error`) on any failure, otherwise
returns the parsed body. -/
def graphqlRequest {α : Type} (t : TransportResult α) : Except Str α :=
  match t with
  | .success a => .ok a
  | .httpError status =>
    .error ("GraphQL request failed with status ".data ++ (toString status).data)
  | .networkError => .error "network error".data
  | .jsonError => .error "json parse error".data

/-! ### search -/

/-- Body of the `search` result loop for one item whose `data` is present:
```
results.push({
  id: data.id,
  title: data.name || "Unknown",
  synonyms: data.altNames || undefined,
  image: this.buildUrl(data.urlCoverOri || "") || undefined,
  year: undefined,
})
```
(`data.altNames || undefined` keeps any present array — even an empty one is
truthy — and maps absent to absent.) -/
def mkSearchResult (d : SearchData) : SearchResult :=
  { id := d.id
    title := match d.name with
      | some n => if n = [] then "Unknown".data else n
      | none => "Unknown".data
    synonyms := d.altNames
    image :=
      let b := buildUrl (d.urlCoverOri.getD [])
      if b = [] then none else some b
    year := none }

/-- The `search` processing of a successfully parsed body:
`result?.data?.get_searchComic?.items || []`, then the push loop skipping
items with absent `data`. -/
def searchOk (resp : SearchResponse) : List SearchResult :=
  let items := ((resp.data.bind SearchResponseData.get_searchComic).bind
    SearchComic.items).getD []
  items.foldl
    (fun acc item =>
      match item.data with
      | none => acc
      | some d => acc ++ [mkSearchResult d])
    []

/-- `search(opts)`: the query options only shape the outgoing request; the
returned list is a function of the transport outcome.  All failures are
caught and become `[]`. -/
def search (t : TransportResult SearchResponse) : List SearchResult :=
  match graphqlRequest t with
  | .error _ => []
  | .ok resp => searchOk resp

/-! ### findChapters -/

/-- `data.dateModify || data.dateCreate` for one chapter record. -/
def chapterTimestamp (d : ChapterData) : Option Int :=
  numOr d.dateModify d.dateCreate

/-- Body of the `findChapters` loop for one record whose `data` is present,
pushed with `index: chapters.length`:
```
const timestamp = data.dateModify || data.dateCreate
const updatedAt = timestamp ? new Date(timestamp * 1000).toISOString() : undefined
const scanlator = data.userNode?.data?.name || data.srcTitle || undefined
chapters.push({
  id: data.id,
  url: this.buildUrl(data.urlPath || ""),
  title: data.title,
  chapter: this.parseChapterNumber(data.dname),
  index: chapters.length,
  language: undefined,
  scanlator,
  updatedAt,
})
``` -/
def mkChapterDetails (d : ChapterData) (idx : Nat) : ChapterDetails :=
  { id := d.id
    url := buildUrl (d.urlPath.getD [])
    title := d.title
    chapter := parseChapterNumber (d.dname.getD [])
    index := idx
    language := none
    scanlator := strOr ((d.userNode.bind UserNode.data).bind UserNodeData.name)
      (strOr d.srcTitle none)
    updatedAt :=
      match chapterTimestamp d with
      | some ts => if ts = 0 then none else some (ts * 1000)
      | none => none }

/-- The `findChapters` processing of a successfully parsed body:
`result?.data?.get_comicChapterList || []`, then the push loop skipping
records with absent `data`; the index of each pushed entry is the length of
the accumulator at push time. -/
def findChaptersOk (resp : ChaptersResponse) : List ChapterDetails :=
  let chapterList := (resp.data.bind ChaptersData.get_comicChapterList).getD []
  chapterList.foldl
    (fun acc item =>
      match item.data with
      | none => acc
      | some d => acc ++ [mkChapterDetails d acc.length])
    []

/-- `findChapters(mangaId)`: the id only shapes the outgoing request; all
failures are caught and become `[]`. -/
def findChapters (t : TransportResult ChaptersResponse) : List ChapterDetails :=
  match graphqlRequest t with
  | .error _ => []
  | .ok resp => findChaptersOk resp

/-! ### findChapterPages -/

/-- `urlList.map((url, index) => ({url, index, headers: this.DEFAULT_HEADERS}))`,
with the running index made explicit. -/
def pagesFrom (i : Nat) : List Str → List ChapterPage
  | [] => []
  | u :: us => { url := u, index := i, headers := DEFAULT_HEADERS } :: pagesFrom (i + 1) us

/-- The `findChapterPages` processing of a successfully parsed body:
`result?.data?.get_chapterNode?.data?.imageFile?.urlList || []` mapped to
pages. -/
def findChapterPagesOk (resp : PagesResponse) : List ChapterPage :=
  let urlList := (((resp.data.bind ChapterNode.data).bind
    ChapterNodeData.imageFile).bind ImageFile.urlList).getD []
  pagesFrom 0 urlList

/-- `findChapterPages(chapterId)`: the id only shapes the outgoing request;
all failures are caught and become `[]`. -/
def findChapterPages (t : TransportResult PagesResponse) : List ChapterPage :=
  match graphqlRequest t with
  | .error _ => []
  | .ok resp => findChapterPagesOk resp

/-! ### Specification-side definitions (from the claim language)

These give independent meaning to "canonical decimal rendering": the numeric
value of a decimal digit string, absence of leading zeros in the integer
part, absence of trailing zeros in the fractional part. -/

/-- The display string `<digits>` or `<digits>.<digits>` covered by the claim. -/
def numToken (ds : Str) (frac : Option Str) : Str :=
  ds ++ (match frac with | some fs => '.' :: fs | none => [])

/-- Value of a fractional digit string (the part after the point). -/
def fracVal (l : Str) : ℚ :=
  (digitsToNat l : ℚ) / 10 ^ l.length

/-- Integer part of a decimal rendering (everything before a point). -/
def intPart (s : Str) : Str := s.takeWhile (fun c => c ≠ '.')

/-- Numeric value denoted by a decimal rendering. -/
def decValue (s : Str) : ℚ :=
  (digitsToNat (intPart s) : ℚ) + fracVal ((s.dropWhile (fun c => c ≠ '.')).tail)

/-- The integer part has no leading zero (a lone `'0'` is allowed). -/
def noLeadZeros (s : Str) : Prop :=
  ∀ r, intPart s = '0' :: r → r = []

/-- If a fractional part is present, it does not end in `'0'`. -/
def noTrailFracZeros (s : Str) : Prop :=
  '.' ∈ s → s.getLast? ≠ some '0'

/-! ### Character-class facts -/

theorem jsDigit_toNat {c : Char} (h : jsDigit c = true) :
    48 ≤ c.toNat ∧ c.toNat ≤ 57 := by
  unfold jsDigit at h
  rw [Bool.and_eq_true, decide_eq_true_eq, decide_eq_true_eq] at h
  exact ⟨UInt32.le_def.mp (Char.le_def.mp h.1), UInt32.le_def.mp (Char.le_def.mp h.2)⟩

theorem jsDigit_not_space {c : Char} (h : jsDigit c = true) : jsSpace c = false := by
  obtain ⟨h1, h2⟩ := jsDigit_toNat h
  cases hs : jsSpace c with
  | false => rfl
  | true =>
    exfalso
    unfold jsSpace at hs
    simp only [Bool.or_eq_true, decide_eq_true_eq, Bool.and_eq_true] at hs
    rcases hs with
      (((((((((((((rfl|rfl)|rfl)|rfl)|rfl)|rfl)|rfl)|rfl)|⟨hl, _⟩)|rfl)|rfl)|rfl)|rfl)|rfl)|rfl
    all_goals first
      | exact absurd h (by decide)
      | (have hl2 : 8192 ≤ c.toNat := UInt32.le_def.mp (Char.le_def.mp hl); omega)

theorem jsDigit_ne_dot {c : Char} (h : jsDigit c = true) : c ≠ '.' := by
  obtain ⟨h1, _⟩ := jsDigit_toNat h
  intro e
  subst e
  exact absurd h1 (by decide)

theorem jsDigit_ne_zero_head {c : Char} (h : jsDigit c = true) : jsSpace c ≠ true := by
  simp [jsDigit_not_space h]

theorem toLower_of_digit {c : Char} (h : jsDigit c = true) : c.toLower = c := by
  obtain ⟨_, h2⟩ := jsDigit_toNat h
  unfold Char.toLower
  rw [if_neg]
  intro hcon
  omega

theorem ciEq_B_digit {c : Char} (h : jsDigit c = true) : ciEq 'B' c = false := by
  unfold ciEq
  rw [toLower_of_digit h]
  have hb : Char.toLower 'B' = 'b' := by decide
  rw [hb, decide_eq_false_iff_not]
  intro e
  obtain ⟨_, h2⟩ := jsDigit_toNat h
  rw [← e] at h2
  exact absurd h2 (by decide)

/-! ### Greedy-run (span) facts -/

theorem takeWhile_dropWhile_append {p : Char → Bool} (a b : Str)
    (ha : ∀ c ∈ a, p c = true) (hb : ∀ c, b.head? = some c → p c = false) :
    (a ++ b).takeWhile p = a ∧ (a ++ b).dropWhile p = b := by
  induction a with
  | nil =>
    simp only [List.nil_append]
    cases b with
    | nil => simp
    | cons x xs =>
      have hx := hb x rfl
      simp [List.takeWhile_cons, List.dropWhile_cons, hx]
  | cons x xs ih =>
    have hx : p x = true := ha x (by simp)
    have hih := ih (fun c hc => ha c (List.mem_cons_of_mem x hc))
    simp [List.takeWhile_cons, List.dropWhile_cons, hx, hih.1, hih.2]

theorem dropWhile_head_false {p : Char → Bool} {l r : Str} {c : Char}
    (h : l.dropWhile p = c :: r) : p c = false := by
  have hh := List.head?_dropWhile_not p l
  rw [h] at hh
  simpa using hh

theorem ciStrip_append_self (p s : Str) : ciStrip p (p ++ s) = some s := by
  induction p with
  | nil => rfl
  | cons c cs ih => simp [ciStrip, ciEq, ih]

/-! ### Behaviour of the regex pipeline on structured inputs -/

theorem stripVol_of_no_vol {s : Str} (h : ciStrip "Vol.".data s = none) :
    stripVol s = s := by
  unfold stripVol
  rw [h]

theorem ciStrip_vol_on_C (xs : Str) : ciStrip "Vol.".data ('C' :: xs) = none := by
  have : ciEq 'V' 'C' = false := by decide
  simp [ciStrip, this, show "Vol.".data = ['V', 'o', 'l', '.'] from rfl]

theorem stripVol_vol (tok ws1 rest : Str)
    (htok : tok ≠ []) (htokc : ∀ c ∈ tok, jsSpace c = false)
    (hws : ws1 ≠ []) (hwsc : ∀ c ∈ ws1, jsSpace c = true)
    (hrest : ∀ c, rest.head? = some c → jsSpace c = false) :
    stripVol ("Vol.".data ++ (tok ++ (ws1 ++ rest))) = rest := by
  have hspan1 := takeWhile_dropWhile_append (p := fun c => !jsSpace c) tok (ws1 ++ rest)
    (fun c hc => by simp [htokc c hc])
    (fun c hc => by
      cases ws1 with
      | nil => exact absurd rfl hws
      | cons w ws =>
        simp only [List.cons_append, List.head?_cons, Option.some.injEq] at hc
        subst hc
        simp [hwsc w (by simp)])
  have hspan2 := takeWhile_dropWhile_append (p := jsSpace) ws1 rest hwsc hrest
  have hdrop0 : (tok ++ (ws1 ++ rest)).dropWhile jsSpace = tok ++ (ws1 ++ rest) := by
    cases tok with
    | nil => exact absurd rfl htok
    | cons t ts =>
      simp only [List.cons_append]
      rw [List.dropWhile_cons_of_neg]
      simp [htokc t (by simp)]
  unfold stripVol
  rw [ciStrip_append_self]
  simp only [hdrop0, hspan1.1, hspan1.2, hspan2.1, hspan2.2]
  rw [if_neg htok, if_neg hws]

theorem isChapterBonus_chdot (xs : Str) : isChapterBonus ('C' :: 'h' :: '.' :: xs) = false := by
  have : ciEq 'a' '.' = false := by decide
  simp [isChapterBonus, ciStrip, ciEq, show "Chapter".data = ['C', 'h', 'a', 'p', 't', 'e', 'r'] from rfl, this]

theorem isChapterBonus_chapter_digits (ws2 tail : Str) {d : Char}
    (hws2 : ∀ c ∈ ws2, jsSpace c = true)
    (hhead : tail.head? = some d) (hd : jsDigit d = true) :
    isChapterBonus ("Chapter".data ++ (ws2 ++ tail)) = false := by
  have hspan := takeWhile_dropWhile_append (p := jsSpace) ws2 tail hws2
    (fun c hc => by
      rw [hhead] at hc
      cases hc
      exact jsDigit_not_space hd)
  unfold isChapterBonus
  rw [ciStrip_append_self]
  simp only [hspan.1, hspan.2]
  by_cases hws2e : ws2 = []
  · rw [if_pos hws2e]
  · rw [if_neg hws2e]
    cases tail with
    | nil => simp at hhead
    | cons t ts =>
      simp only [List.head?_cons, Option.some.injEq] at hhead
      subst hhead
      have hB : ciEq 'B' t = false := ciEq_B_digit hd
      simp [ciStrip, hB, show "Bonus".data = ['B', 'o', 'n', 'u', 's'] from rfl]

theorem chapterKeywordAt_chdot (xs : Str) :
    chapterKeywordAt ("Ch.".data ++ xs) = some xs := by
  unfold chapterKeywordAt
  rw [ciStrip_append_self]

theorem chapterKeywordAt_chapter (xs : Str) :
    chapterKeywordAt ("Chapter".data ++ xs) = some xs := by
  unfold chapterKeywordAt
  have h1 : ciStrip "Ch.".data ("Chapter".data ++ xs) = none := by
    have : ciEq '.' 'a' = false := by decide
    simp [ciStrip, ciEq, this, show "Ch.".data = ['C', 'h', '.'] from rfl,
      show "Chapter".data ++ xs = 'C' :: 'h' :: 'a' :: ("pter".data ++ xs) from rfl]
  rw [h1, ciStrip_append_self]

theorem numberAfterKeyword_spec (ws2 ds : Str) (frac : Option Str)
    (hws2 : ∀ c ∈ ws2, jsSpace c = true)
    (hds : ds ≠ []) (hdsc : ∀ c ∈ ds, jsDigit c = true)
    (hfrac : ∀ fs, frac = some fs → fs ≠ [] ∧ ∀ c ∈ fs, jsDigit c = true) :
    numberAfterKeyword (ws2 ++ numToken ds frac) = some (numToken ds frac) := by
  obtain ⟨d, dd, rfl⟩ : ∃ d dd, ds = d :: dd := by
    cases ds with
    | nil => exact absurd rfl hds
    | cons d dd => exact ⟨d, dd, rfl⟩
  have hd : jsDigit d = true := hdsc d (by simp)
  cases frac with
  | none =>
    have hnt : numToken (d :: dd) none = d :: dd := by simp [numToken]
    rw [hnt]
    have hspan1 := takeWhile_dropWhile_append (p := jsSpace) ws2 (d :: dd) hws2
      (fun c hc => by
        simp only [List.head?_cons, Option.some.injEq] at hc
        subst hc
        exact jsDigit_not_space hd)
    have htake : (d :: dd).takeWhile jsDigit = d :: dd :=
      List.takeWhile_eq_self_iff.mpr hdsc
    have hdrop : (d :: dd).dropWhile jsDigit = [] := by
      have := List.takeWhile_append_dropWhile (p := jsDigit) (l := d :: dd)
      rw [htake] at this
      have hlen := congrArg List.length this
      simp only [List.length_append] at hlen
      cases hde : (d :: dd).dropWhile jsDigit with
      | nil => rfl
      | cons x xs =>
        rw [hde] at hlen
        simp at hlen
    unfold numberAfterKeyword
    simp only [hspan1.2, htake, hdrop]
    rw [if_neg hds]
  | some fs =>
    obtain ⟨hfs, hfsc⟩ := hfrac fs rfl
    have hnt : numToken (d :: dd) (some fs) = (d :: dd) ++ '.' :: fs := by
      simp [numToken]
    rw [hnt]
    have hspan1 := takeWhile_dropWhile_append (p := jsSpace) ws2 ((d :: dd) ++ '.' :: fs) hws2
      (fun c hc => by
        simp only [List.cons_append, List.head?_cons, Option.some.injEq] at hc
        subst hc
        exact jsDigit_not_space hd)
    have hspan2 := takeWhile_dropWhile_append (p := jsDigit) (d :: dd) ('.' :: fs) hdsc
      (fun c hc => by
        simp only [List.head?_cons, Option.some.injEq] at hc
        subst hc
        decide)
    have htakefs : fs.takeWhile jsDigit = fs := List.takeWhile_eq_self_iff.mpr hfsc
    unfold numberAfterKeyword
    simp only [hspan1.2, hspan2.1, hspan2.2, htakefs]
    rw [if_neg hds, if_neg hfs]

theorem findChapterNum_head {s r n : Str}
    (hs : s ≠ []) (hkw : chapterKeywordAt s = some r)
    (hn : numberAfterKeyword r = some n) :
    findChapterNum s = some n := by
  cases s with
  | nil => exact absurd rfl hs
  | cons c rest =>
    unfold findChapterNum
    simp only [hkw, hn]

/-! ### Canonicalisation facts -/

theorem digitsToNat_cons_zero (l : Str) : digitsToNat ('0' :: l) = digitsToNat l := rfl

theorem digitsToNat_dropWhile_zero (l : Str) :
    digitsToNat (l.dropWhile (fun c => c = '0')) = digitsToNat l := by
  induction l with
  | nil => rfl
  | cons c cs ih =>
    by_cases hc : c = '0'
    · subst hc
      rw [List.dropWhile_cons_of_pos (by simp), ih, digitsToNat_cons_zero]
    · rw [List.dropWhile_cons_of_neg (by simp [hc])]

theorem digitsToNat_dropLeadZeros (l : Str) :
    digitsToNat (dropLeadZeros l) = digitsToNat l := by
  have hkey := digitsToNat_dropWhile_zero l
  unfold dropLeadZeros
  cases hd : l.dropWhile (fun c => c = '0') with
  | nil =>
    rw [hd] at hkey
    calc digitsToNat ['0'] = digitsToNat [] := rfl
    _ = digitsToNat l := hkey
  | cons x xs =>
    rw [hd] at hkey
    exact hkey

theorem mem_dropLeadZeros_digit {l : Str} (hl : ∀ c ∈ l, jsDigit c = true) :
    ∀ c ∈ dropLeadZeros l, jsDigit c = true := by
  intro c hc
  unfold dropLeadZeros at hc
  cases hd : l.dropWhile (fun c => c = '0') with
  | nil =>
    rw [hd] at hc
    simp only [List.mem_singleton] at hc
    subst hc
    decide
  | cons x xs =>
    rw [hd] at hc
    have hsub := (List.dropWhile_sublist (l := l) (fun c => c = '0')).subset
    rw [hd] at hsub
    exact hl c (hsub hc)

theorem dropLeadZeros_ne_nil (l : Str) : dropLeadZeros l ≠ [] := by
  unfold dropLeadZeros
  cases hd : l.dropWhile (fun c => c = '0') <;> simp

theorem dropLeadZeros_head {l r : Str} (h : dropLeadZeros l = '0' :: r) : r = [] := by
  unfold dropLeadZeros at h
  cases hd : l.dropWhile (fun c => c = '0') with
  | nil =>
    rw [hd] at h
    cases h
    rfl
  | cons x xs =>
    rw [hd] at h
    cases h
    have hfalse := dropWhile_head_false hd
    simp at hfalse

theorem digitsToNat_append_single (l : Str) (c : Char) :
    digitsToNat (l ++ [c]) = 10 * digitsToNat l + (c.toNat - 48) := by
  unfold digitsToNat
  rw [List.foldl_append]
  rfl

theorem fracVal_append_zero (l : Str) : fracVal (l ++ ['0']) = fracVal l := by
  unfold fracVal
  rw [digitsToNat_append_single]
  simp only [List.length_append, List.length_cons, List.length_nil, Nat.zero_add]
  rw [show ('0'.toNat - 48) = 0 from rfl, Nat.add_zero]
  push_cast
  rw [pow_succ]
  have h10 : (10 : ℚ) ^ l.length ≠ 0 := by positivity
  field_simp
  ring

theorem dropTrailZeros_append_zero (l : Str) :
    dropTrailZeros (l ++ ['0']) = dropTrailZeros l := by
  unfold dropTrailZeros
  rw [List.reverse_append]
  simp only [List.reverse_cons, List.reverse_nil, List.nil_append, List.singleton_append]
  rw [List.dropWhile_cons_of_pos (by simp)]

theorem dropTrailZeros_append_nonzero (l : Str) {c : Char} (hc : c ≠ '0') :
    dropTrailZeros (l ++ [c]) = l ++ [c] := by
  unfold dropTrailZeros
  rw [List.reverse_append]
  simp only [List.reverse_cons, List.reverse_nil, List.nil_append, List.singleton_append]
  rw [List.dropWhile_cons_of_neg (by simp [hc])]
  simp

theorem fracVal_dropTrailZeros (l : Str) : fracVal (dropTrailZeros l) = fracVal l := by
  induction l using List.reverseRecOn with
  | nil => rfl
  | append_singleton l c ih =>
    by_cases hc : c = '0'
    · subst hc
      rw [dropTrailZeros_append_zero, ih, fracVal_append_zero]
    · rw [dropTrailZeros_append_nonzero l hc]

theorem mem_dropTrailZeros {l : Str} {c : Char} (hc : c ∈ dropTrailZeros l) : c ∈ l := by
  unfold dropTrailZeros at hc
  rw [List.mem_reverse] at hc
  have hsub := (List.dropWhile_sublist (l := l.reverse) (fun c => c = '0')).subset
  exact List.mem_reverse.mp (hsub hc)

theorem dropTrailZeros_getLast (l : Str) (hne : dropTrailZeros l ≠ []) :
    (dropTrailZeros l).getLast? ≠ some '0' := by
  unfold dropTrailZeros at hne ⊢
  rw [List.getLast?_reverse]
  cases hh : (l.reverse.dropWhile (fun c => c = '0')).head? with
  | none =>
    rw [List.head?_eq_none_iff] at hh
    rw [hh] at hne
    simp at hne
  | some x =>
    have hfalse := List.head?_dropWhile_not (fun c => decide (c = '0')) l.reverse
    rw [hh] at hfalse
    simp only [decide_eq_false_iff_not] at hfalse
    simp [hfalse]

theorem dropTrailZeros_sub_digits {l : Str} (hl : ∀ c ∈ l, jsDigit c = true) :
    ∀ c ∈ dropTrailZeros l, jsDigit c = true :=
  fun c hc => hl c (mem_dropTrailZeros hc)

/-- Structure of `canonDecimal` on a well-formed number token. -/
theorem canonDecimal_numToken (ds : Str) (frac : Option Str)
    (hdsc : ∀ c ∈ ds, jsDigit c = true) :
    canonDecimal (numToken ds frac) =
      (match frac with
      | none => dropLeadZeros ds
      | some fs =>
        match dropTrailZeros fs with
        | [] => dropLeadZeros ds
        | fsC => dropLeadZeros ds ++ '.' :: fsC) := by
  cases frac with
  | none =>
    have hnt : numToken ds none = ds := by simp [numToken]
    rw [hnt]
    have htake : ds.takeWhile (fun c => c ≠ '.') = ds :=
      List.takeWhile_eq_self_iff.mpr (fun c hc => by simp [jsDigit_ne_dot (hdsc c hc)])
    have hdrop : ds.dropWhile (fun c => c ≠ '.') = [] :=
      List.dropWhile_eq_nil_iff.mpr (fun c hc => by simp [jsDigit_ne_dot (hdsc c hc)])
    unfold canonDecimal
    simp only [htake, hdrop]
  | some fs =>
    have hnt : numToken ds (some fs) = ds ++ '.' :: fs := by simp [numToken]
    rw [hnt]
    have hspan := takeWhile_dropWhile_append (p := fun c => c ≠ '.') ds ('.' :: fs)
      (fun c hc => by simp [jsDigit_ne_dot (hdsc c hc)])
      (fun c hc => by
        simp only [List.head?_cons, Option.some.injEq] at hc
        subst hc
        decide)
    unfold canonDecimal
    simp only [hspan.1, hspan.2]

theorem decValue_digits (l : Str) (hl : ∀ c ∈ l, jsDigit c = true) :
    decValue l = (digitsToNat l : ℚ) := by
  unfold decValue intPart
  rw [List.takeWhile_eq_self_iff.mpr (fun c hc => by simp [jsDigit_ne_dot (hl c hc)]),
    List.dropWhile_eq_nil_iff.mpr (fun c hc => by simp [jsDigit_ne_dot (hl c hc)])]
  simp [fracVal, digitsToNat]

theorem decValue_with_frac (ds fs : Str) (hdsc : ∀ c ∈ ds, jsDigit c = true) :
    decValue (ds ++ '.' :: fs) = (digitsToNat ds : ℚ) + fracVal fs := by
  have hspan := takeWhile_dropWhile_append (p := fun c => c ≠ '.') ds ('.' :: fs)
    (fun c hc => by simp [jsDigit_ne_dot (hdsc c hc)])
    (fun c hc => by
      simp only [List.head?_cons, Option.some.injEq] at hc
      subst hc
      decide)
  unfold decValue intPart
  rw [hspan.1, hspan.2]
  simp

theorem canonDecimal_numToken_none (ds : Str) (hdsc : ∀ c ∈ ds, jsDigit c = true) :
    canonDecimal (numToken ds none) = dropLeadZeros ds := by
  simpa using canonDecimal_numToken ds none hdsc

theorem canonDecimal_numToken_some (ds fs : Str) (hdsc : ∀ c ∈ ds, jsDigit c = true) :
    canonDecimal (numToken ds (some fs)) =
      (match dropTrailZeros fs with
      | [] => dropLeadZeros ds
      | fsC => dropLeadZeros ds ++ '.' :: fsC) := by
  simpa using canonDecimal_numToken ds (some fs) hdsc

theorem fracVal_nil : fracVal [] = 0 := by
  simp [fracVal, digitsToNat]

theorem decValue_canonDecimal (ds : Str) (frac : Option Str)
    (hdsc : ∀ c ∈ ds, jsDigit c = true)
    (hfrac : ∀ fs, frac = some fs → fs ≠ [] ∧ ∀ c ∈ fs, jsDigit c = true) :
    decValue (canonDecimal (numToken ds frac)) = decValue (numToken ds frac) := by
  cases frac with
  | none =>
    have h1 : numToken ds none = ds := by simp [numToken]
    rw [canonDecimal_numToken_none ds hdsc, h1,
      decValue_digits _ (mem_dropLeadZeros_digit hdsc), decValue_digits _ hdsc,
      digitsToNat_dropLeadZeros]
  | some fs =>
    have h1 : numToken ds (some fs) = ds ++ '.' :: fs := by simp [numToken]
    rw [canonDecimal_numToken_some ds fs hdsc, h1, decValue_with_frac ds fs hdsc]
    cases htz : dropTrailZeros fs with
    | nil =>
      simp only
      rw [decValue_digits _ (mem_dropLeadZeros_digit hdsc), digitsToNat_dropLeadZeros]
      have hf : fracVal fs = 0 := by
        rw [← fracVal_dropTrailZeros, htz, fracVal_nil]
      rw [hf, add_zero]
    | cons g gs =>
      simp only
      rw [decValue_with_frac _ _ (mem_dropLeadZeros_digit hdsc), digitsToNat_dropLeadZeros,
        ← htz, fracVal_dropTrailZeros]

theorem noLeadZeros_canonDecimal (ds : Str) (frac : Option Str)
    (hdsc : ∀ c ∈ ds, jsDigit c = true) :
    noLeadZeros (canonDecimal (numToken ds frac)) := by
  have hipc := mem_dropLeadZeros_digit hdsc
  have hip : intPart (dropLeadZeros ds) = dropLeadZeros ds := by
    unfold intPart
    exact List.takeWhile_eq_self_iff.mpr (fun c hc => by simp [jsDigit_ne_dot (hipc c hc)])
  cases frac with
  | none =>
    rw [canonDecimal_numToken_none ds hdsc]
    intro r hr
    rw [hip] at hr
    exact dropLeadZeros_head hr
  | some fs =>
    rw [canonDecimal_numToken_some ds fs hdsc]
    cases htz : dropTrailZeros fs with
    | nil =>
      simp only
      intro r hr
      rw [hip] at hr
      exact dropLeadZeros_head hr
    | cons g gs =>
      simp only
      intro r hr
      have hspan := takeWhile_dropWhile_append (p := fun c => c ≠ '.')
        (dropLeadZeros ds) ('.' :: g :: gs)
        (fun c hc => by simp [jsDigit_ne_dot (hipc c hc)])
        (fun c hc => by
          simp only [List.head?_cons, Option.some.injEq] at hc
          subst hc
          decide)
      unfold intPart at hr
      rw [hspan.1] at hr
      exact dropLeadZeros_head hr

theorem noTrailFracZeros_canonDecimal (ds : Str) (frac : Option Str)
    (hdsc : ∀ c ∈ ds, jsDigit c = true) :
    noTrailFracZeros (canonDecimal (numToken ds frac)) := by
  have hipc := mem_dropLeadZeros_digit hdsc
  have hnodot : '.' ∉ dropLeadZeros ds := by
    intro hmem
    have := hipc '.' hmem
    exact absurd this (by decide)
  cases frac with
  | none =>
    rw [canonDecimal_numToken_none ds hdsc]
    intro hmem
    exact absurd hmem hnodot
  | some fs =>
    rw [canonDecimal_numToken_some ds fs hdsc]
    cases htz : dropTrailZeros fs with
    | nil =>
      simp only
      intro hmem
      exact absurd hmem hnodot
    | cons g gs =>
      simp only
      intro _
      rw [List.getLast?_append]
      have hlast := dropTrailZeros_getLast fs (by rw [htz]; simp)
      rw [htz] at hlast
      have hcons : ('.' :: g :: gs).getLast? = (g :: gs).getLast? :=
        List.getLast?_cons_cons
      rw [hcons]
      obtain ⟨y, hy⟩ : ∃ y, (g :: gs).getLast? = some y := by
        cases hgy : (g :: gs).getLast? with
        | none =>
          rw [List.getLast?_eq_none_iff] at hgy
          cases hgy
        | some y => exact ⟨y, rfl⟩
      rw [hy]
      rw [hy] at hlast
      simpa using hlast

/-- C1 (amended): for inputs of the form `[Vol.<token><ws>]
("Ch." | "Chapter") <ws> <digits>[.<digits>]` **whose number survives the
IEEE-754 round-trip exactly** (the float parse/print of the captured token
reproduces its canonical rendering — e.g. at most ~15 significant digits and
magnitude below 2^53), `parseChapterNumber` returns the canonical decimal
rendering of the number, which preserves the denoted value, has no leading
zeros in the integer part, and no trailing zeros in the fractional part. -/
theorem c1_parseChapterNumber_canonical
    (pre kw ws2 ds : Str) (frac : Option Str)
    (hpre : pre = [] ∨ ∃ tok ws1, pre = "Vol.".data ++ (tok ++ ws1) ∧ tok ≠ [] ∧
      (∀ c ∈ tok, jsSpace c = false) ∧ ws1 ≠ [] ∧ (∀ c ∈ ws1, jsSpace c = true))
    (hkw : kw = "Ch.".data ∨ kw = "Chapter".data)
    (hws2 : ∀ c ∈ ws2, jsSpace c = true)
    (hds : ds ≠ []) (hdsc : ∀ c ∈ ds, jsDigit c = true)
    (hfrac : ∀ fs, frac = some fs → fs ≠ [] ∧ ∀ c ∈ fs, jsDigit c = true)
    (hexact : jsRenderNum (numToken ds frac) = canonDecimal (numToken ds frac)) :
    parseChapterNumber (pre ++ (kw ++ (ws2 ++ numToken ds frac)))
        = canonDecimal (numToken ds frac)
      ∧ decValue (canonDecimal (numToken ds frac)) = decValue (numToken ds frac)
      ∧ noLeadZeros (canonDecimal (numToken ds frac))
      ∧ noTrailFracZeros (canonDecimal (numToken ds frac)) := by
  refine ⟨?_, decValue_canonDecimal ds frac hdsc hfrac,
    noLeadZeros_canonDecimal ds frac hdsc, noTrailFracZeros_canonDecimal ds frac hdsc⟩
  have hCns : jsSpace 'C' = false := by decide
  -- the stripped string is `kw ++ (ws2 ++ numToken ds frac)`
  have hstrip : stripVol (pre ++ (kw ++ (ws2 ++ numToken ds frac)))
      = kw ++ (ws2 ++ numToken ds frac) := by
    rcases hpre with rfl | ⟨tok, ws1, rfl, htok, htokc, hws1, hws1c⟩
    · rw [List.nil_append]
      apply stripVol_of_no_vol
      rcases hkw with rfl | rfl
      · exact ciStrip_vol_on_C _
      · exact ciStrip_vol_on_C _
    · rw [List.append_assoc "Vol.".data, List.append_assoc tok]
      exact stripVol_vol tok ws1 _ htok htokc hws1 hws1c
        (fun c hc => by
          rcases hkw with rfl | rfl <;>
            (simp only [List.cons_append, List.head?_cons, Option.some.injEq] at hc;
             subst hc; decide))
  obtain ⟨d, dd, hdd⟩ : ∃ d dd, ds = d :: dd := by
    cases ds with
    | nil => exact absurd rfl hds
    | cons d dd => exact ⟨d, dd, rfl⟩
  have hheadnum : (numToken ds frac).head? = some d := by
    subst hdd
    cases frac <;> simp [numToken]
  have hbonus : isChapterBonus (kw ++ (ws2 ++ numToken ds frac)) = false := by
    rcases hkw with rfl | rfl
    · exact isChapterBonus_chdot _
    · exact @isChapterBonus_chapter_digits ws2 (numToken ds frac) d hws2 hheadnum
        (hdsc d (by rw [hdd]; simp))
  have hfind : findChapterNum (kw ++ (ws2 ++ numToken ds frac))
      = some (numToken ds frac) := by
    have hnum := numberAfterKeyword_spec ws2 ds frac hws2 hds hdsc hfrac
    rcases hkw with rfl | rfl
    · exact findChapterNum_head (by simp) (chapterKeywordAt_chdot _) hnum
    · exact findChapterNum_head (by simp) (chapterKeywordAt_chapter _) hnum
  have hne : pre ++ (kw ++ (ws2 ++ numToken ds frac)) ≠ [] := by
    rcases hkw with rfl | rfl <;> simp [List.append_eq_nil]
  unfold parseChapterNumber
  rw [if_neg hne, hstrip]
  simp only [hbonus, Bool.false_eq_true, if_false, hfind]
  exact hexact

/-! ### Loop characterisations -/

/-- A chapter-list response whose nested fields are all present. -/
def mkChaptersResponse (items : List ChapterItem) : ChaptersResponse :=
  ⟨some ⟨some items⟩⟩

/-- A search response whose nested fields are all present. -/
def mkSearchResponse (items : List SearchItem) : SearchResponse :=
  ⟨some ⟨some ⟨some items⟩⟩⟩

/-- A pages response whose nested fields are all present. -/
def mkPagesResponse (urls : List Str) : PagesResponse :=
  ⟨some ⟨some ⟨some ⟨some urls⟩⟩⟩⟩

/-- The chapter entries produced from the items, starting at index `i`. -/
def chaptersFrom (i : Nat) : List ChapterItem → List ChapterDetails
  | [] => []
  | it :: its =>
    match it.data with
    | none => chaptersFrom i its
    | some d => mkChapterDetails d i :: chaptersFrom (i + 1) its

/-- The chapter entries for a list of present records, indexed from `i`. -/
def withIndices (i : Nat) : List ChapterData → List ChapterDetails
  | [] => []
  | d :: ds => mkChapterDetails d i :: withIndices (i + 1) ds

theorem findChapters_foldl (l : List ChapterItem) (acc : List ChapterDetails) :
    l.foldl (fun acc item =>
      match item.data with
      | none => acc
      | some d => acc ++ [mkChapterDetails d acc.length]) acc
    = acc ++ chaptersFrom acc.length l := by
  induction l generalizing acc with
  | nil => simp [chaptersFrom]
  | cons it its ih =>
    cases hd : it.data with
    | none =>
      simp only [List.foldl_cons, hd, chaptersFrom]
      exact ih acc
    | some d =>
      simp only [List.foldl_cons, hd, chaptersFrom]
      rw [ih]
      simp [List.length_append, List.append_assoc]

theorem chaptersFrom_eq_withIndices (l : List ChapterItem) (i : Nat) :
    chaptersFrom i l = withIndices i (l.filterMap ChapterItem.data) := by
  induction l generalizing i with
  | nil => simp [chaptersFrom, withIndices]
  | cons it its ih =>
    cases hd : it.data with
    | none => simp [chaptersFrom, List.filterMap_cons, hd, ih]
    | some d => simp [chaptersFrom, List.filterMap_cons, hd, ih, withIndices]

theorem withIndices_length (l : List ChapterData) (i : Nat) :
    (withIndices i l).length = l.length := by
  induction l generalizing i with
  | nil => rfl
  | cons d ds ih => simp [withIndices, ih]

theorem withIndices_get (l : List ChapterData) (i j : Nat)
    (h1 : j < (withIndices i l).length) (h2 : j < l.length) :
    (withIndices i l).get ⟨j, h1⟩ = mkChapterDetails (l.get ⟨j, h2⟩) (i + j) := by
  induction l generalizing i j with
  | nil => exact absurd h2 (by simp)
  | cons d ds ih =>
    cases j with
    | zero => simp [withIndices]
    | succ j =>
      simp only [withIndices, List.get_cons_succ]
      rw [ih]
      congr 1
      omega

theorem withIndices_map {α : Type} (f : ChapterDetails → α) (g : ChapterData → α)
    (hfg : ∀ d i, f (mkChapterDetails d i) = g d) (l : List ChapterData) (i : Nat) :
    (withIndices i l).map f = l.map g := by
  induction l generalizing i with
  | nil => rfl
  | cons d ds ih => simp [withIndices, hfg, ih]

theorem search_foldl (l : List SearchItem) (acc : List SearchResult) :
    l.foldl (fun acc item =>
      match item.data with
      | none => acc
      | some d => acc ++ [mkSearchResult d]) acc
    = acc ++ (l.filterMap SearchItem.data).map mkSearchResult := by
  induction l generalizing acc with
  | nil => simp
  | cons it its ih =>
    cases hd : it.data with
    | none => simp only [List.foldl_cons, hd, List.filterMap_cons]; exact ih acc
    | some d =>
      simp only [List.foldl_cons, hd, List.filterMap_cons]
      rw [ih]
      simp [List.append_assoc]

theorem search_success (l : List SearchItem) :
    search (.success (mkSearchResponse l))
      = (l.filterMap SearchItem.data).map mkSearchResult := by
  show searchOk (mkSearchResponse l) = _
  unfold searchOk mkSearchResponse
  rw [show ((((⟨some ⟨some ⟨some l⟩⟩⟩ : SearchResponse)).data.bind
    SearchResponseData.get_searchComic).bind SearchComic.items).getD [] = l from rfl]
  rw [search_foldl]
  rfl

theorem findChapters_success (l : List ChapterItem) :
    findChapters (.success (mkChaptersResponse l))
      = withIndices 0 (l.filterMap ChapterItem.data) := by
  show findChaptersOk (mkChaptersResponse l) = _
  unfold findChaptersOk mkChaptersResponse
  rw [show (((⟨some ⟨some l⟩⟩ : ChaptersResponse)).data.bind
    ChaptersData.get_comicChapterList).getD [] = l from rfl]
  rw [findChapters_foldl]
  rw [chaptersFrom_eq_withIndices]
  rfl

theorem filterMap_data_map_some (l : List ChapterData) :
    (l.map fun d => (⟨some d⟩ : ChapterItem)).filterMap ChapterItem.data = l := by
  induction l with
  | nil => rfl
  | cons d ds ih => simp [List.filterMap_cons, ih]

theorem pagesFrom_length (k : Nat) (l : List Str) :
    (pagesFrom k l).length = l.length := by
  induction l generalizing k with
  | nil => rfl
  | cons u us ih => simp [pagesFrom, ih]

theorem pagesFrom_get (l : List Str) (k i : Nat)
    (h1 : i < (pagesFrom k l).length) (h2 : i < l.length) :
    (pagesFrom k l).get ⟨i, h1⟩
      = { url := l.get ⟨i, h2⟩, index := k + i, headers := DEFAULT_HEADERS } := by
  induction l generalizing k i with
  | nil => exact absurd h2 (by simp)
  | cons u us ih =>
    cases i with
    | zero => simp [pagesFrom]
    | succ i =>
      simp only [pagesFrom, List.get_cons_succ]
      rw [ih]
      congr 1
      omega

theorem findChapterPages_success (urls : List Str) :
    findChapterPages (.success (mkPagesResponse urls)) = pagesFrom 0 urls := rfl

/-! ### buildUrl case analysis (shared helper) -/

theorem isPrefixOf_ne_nil {p l : Str} (hp : p ≠ []) (h : p.isPrefixOf l = true) :
    l ≠ [] := by
  intro e
  subst e
  cases p with
  | nil => exact hp rfl
  | cons c cs => simp [List.isPrefixOf] at h

theorem slash_not_http {l : Str} (h : "/".data.isPrefixOf l = true) :
    "http".data.isPrefixOf l = false := by
  cases l with
  | nil => simp [List.isPrefixOf] at h
  | cons c cs =>
    have hc : c = '/' := by
      have := h
      simp [show ("/".data : Str) = ['/'] from rfl, List.isPrefixOf] at this
      exact this.symm
    subst hc
    simp [show ("http".data : Str) = ['h', 't', 't', 'p'] from rfl, List.isPrefixOf]

theorem buildUrl_spec (p : Str) :
    (p = [] → buildUrl p = [])
      ∧ ("http".data.isPrefixOf p = true → buildUrl p = p)
      ∧ ("/".data.isPrefixOf p = true → buildUrl p = baseUrl ++ p)
      ∧ (p ≠ [] → "http".data.isPrefixOf p = false → "/".data.isPrefixOf p = false →
          buildUrl p = p) := by
  refine ⟨?_, ?_, ?_, ?_⟩
  · intro h
    rw [buildUrl, if_pos h]
  · intro h
    have hne : p ≠ [] := isPrefixOf_ne_nil (by decide) h
    unfold buildUrl
    rw [if_neg hne, if_pos h]
  · intro h
    have hne : p ≠ [] := isPrefixOf_ne_nil (by decide) h
    unfold buildUrl
    rw [if_neg hne]
    simp only [slash_not_http h, Bool.false_eq_true, if_false, h, if_true]
  · intro hne hh hs
    unfold buildUrl
    rw [if_neg hne]
    simp only [hh, hs, Bool.false_eq_true, if_false]

/-- C7: `buildUrl` by cases — empty input yields the empty string, an input
starting with `"http"` is returned unchanged, an input starting with `"/"`
is prefixed with the service origin, and any other non-empty input is
returned unchanged. -/
theorem c7_buildUrl_cases (p : Str) :
    (p = [] → buildUrl p = [])
      ∧ ("http".data.isPrefixOf p = true → buildUrl p = p)
      ∧ ("/".data.isPrefixOf p = true → buildUrl p = "https://mangapark.io".data ++ p)
      ∧ (p ≠ [] → "http".data.isPrefixOf p = false → "/".data.isPrefixOf p = false →
          buildUrl p = p) :=
  buildUrl_spec p

/-- Witness for C7 at the four cases of the spec's examples. -/
theorem c7_witness :
    buildUrl [] = []
      ∧ buildUrl "https://x/y.png".data = "https://x/y.png".data
      ∧ buildUrl "/covers/a.png".data = "https://mangapark.io".data ++ "/covers/a.png".data
      ∧ buildUrl "banana".data = "banana".data :=
  ⟨(c7_buildUrl_cases []).1 rfl,
   (c7_buildUrl_cases "https://x/y.png".data).2.1 (by decide),
   (c7_buildUrl_cases "/covers/a.png".data).2.2.1 (by decide),
   (c7_buildUrl_cases "banana".data).2.2.2 (by decide) (by decide) (by decide)⟩

/-- Witness for C1 at the spec's two examples (`"Vol.02 Chapter 003"` and
`"Chapter 1.50"`), whose numbers survive the float round-trip exactly. -/
theorem c1_witness :
    parseChapterNumber "Vol.02 Chapter 003".data = "3".data
      ∧ parseChapterNumber "Chapter 1.50".data = "1.5".data := by
  constructor
  · have h := (c1_parseChapterNumber_canonical ("Vol.".data ++ ("02".data ++ " ".data))
      "Chapter".data " ".data "003".data none
      (Or.inr ⟨"02".data, " ".data, rfl, by decide, by decide, by decide, by decide⟩)
      (Or.inr rfl) (by decide) (by decide) (by decide)
      (fun fs hfs => Option.noConfusion hfs) (by decide)).1
    rw [show ("Vol.02 Chapter 003".data : Str)
      = "Vol.".data ++ ("02".data ++ " ".data)
        ++ ("Chapter".data ++ (" ".data ++ numToken "003".data none)) from by decide]
    rw [show ("3".data : Str) = canonDecimal (numToken "003".data none) from by decide]
    exact h
  · have h := (c1_parseChapterNumber_canonical [] "Chapter".data " ".data "1".data
      (some "50".data) (Or.inl rfl) (Or.inr rfl) (by decide) (by decide) (by decide)
      (fun fs hfs => by cases hfs; exact ⟨by decide, by decide⟩) (by decide)).1
    rw [show ("Chapter 1.50".data : Str)
      = [] ++ ("Chapter".data ++ (" ".data ++ numToken "1".data (some "50".data)))
        from by decide]
    rw [show ("1.5".data : Str) = canonDecimal (numToken "1".data (some "50".data))
      from by decide]
    exact h

/-- C1 counterexample: the program parses the matched number through an
IEEE-754 double.  At `"Chapter 9007199254740993"` (2^53 + 1, not
representable) it returns `"9007199254740992"`, not the canonical rendering
`"9007199254740993"` of that number; and at a 23-digit number it returns
exponent notation `"1e+22"`, not a plain decimal rendering at all. -/
theorem c1_counterexample :
    parseChapterNumber "Chapter 9007199254740993".data = "9007199254740992".data
      ∧ canonDecimal "9007199254740993".data = "9007199254740993".data
      ∧ parseChapterNumber "Chapter 9007199254740993".data
        ≠ canonDecimal "9007199254740993".data
      ∧ parseChapterNumber "Chapter 10000000000000000000000".data = "1e+22".data := by
  refine ⟨by decide, by decide, by decide, by decide⟩

/-! ### C2: cover-image resolution in search -/

/-- A search item whose cover value starts with neither a scheme nor `/`. -/
def c2Item : SearchData :=
  { id := some "42".data, name := some "Foo".data, altNames := none,
    urlPath := none, urlCoverOri := some "banana".data }

/-- C2 counterexample: for the cover value `"banana"` (neither scheme nor
leading `/`), `search` passes the value through and the image field is
defined — it is not treated as absent as the claim states. -/
theorem c2_counterexample :
    (search (.success (mkSearchResponse [⟨some c2Item⟩]))).map SearchResult.image
      = [some "banana".data]
      ∧ some "banana".data ≠ (none : Option Str) := by
  constructor
  · decide
  · decide

theorem baseUrl_append_ne_nil (l : Str) : baseUrl ++ l ≠ [] := by
  rw [show (baseUrl : Str) = 'h' :: "ttps://mangapark.io".data from rfl]
  simp

/-- C2 amended: `search` resolves the cover-image field as follows — a value
beginning with `"http"` is passed through unchanged, a value with leading
`/` is prefixed with the service origin, any **other non-empty** value is
also passed through unchanged (not treated as absent), and only a missing
or empty value yields an undefined image field. -/
theorem c2_amended_image_cases (d : SearchData) :
    search (.success (mkSearchResponse [⟨some d⟩])) = [mkSearchResult d]
      ∧ (d.urlCoverOri.getD [] = [] → (mkSearchResult d).image = none)
      ∧ ("http".data.isPrefixOf (d.urlCoverOri.getD []) = true →
          (mkSearchResult d).image = some (d.urlCoverOri.getD []))
      ∧ ("/".data.isPrefixOf (d.urlCoverOri.getD []) = true →
          (mkSearchResult d).image = some (baseUrl ++ d.urlCoverOri.getD []))
      ∧ (d.urlCoverOri.getD [] ≠ [] →
          "http".data.isPrefixOf (d.urlCoverOri.getD []) = false →
          "/".data.isPrefixOf (d.urlCoverOri.getD []) = false →
          (mkSearchResult d).image = some (d.urlCoverOri.getD [])) := by
  have himg : (mkSearchResult d).image
      = (if buildUrl (d.urlCoverOri.getD []) = [] then none
         else some (buildUrl (d.urlCoverOri.getD []))) := rfl
  have hspec := buildUrl_spec (d.urlCoverOri.getD [])
  refine ⟨?_, ?_, ?_, ?_, ?_⟩
  · rw [search_success]
    rfl
  · intro h
    rw [himg, hspec.1 h, if_pos rfl]
  · intro h
    have hne : d.urlCoverOri.getD [] ≠ [] := isPrefixOf_ne_nil (by decide) h
    rw [himg, hspec.2.1 h, if_neg hne]
  · intro h
    rw [himg, hspec.2.2.1 h, if_neg (baseUrl_append_ne_nil _)]
  · intro hne hh hs
    rw [himg, hspec.2.2.2 hne hh hs, if_neg hne]

/-- A search item carrying only a cover value, for concrete instantiations. -/
def coverOnlyItem (cov : Option Str) : SearchData :=
  { id := none, name := none, altNames := none, urlPath := none, urlCoverOri := cov }

/-- Witness for C2 amended, at an empty, an absolute, a relative and a bare
cover value. -/
theorem c2_amended_witness :
    (mkSearchResult (coverOnlyItem none)).image = none
      ∧ (mkSearchResult (coverOnlyItem (some "https://x/c.jpg".data))).image
        = some "https://x/c.jpg".data
      ∧ (mkSearchResult (coverOnlyItem (some "/c.jpg".data))).image
        = some (baseUrl ++ "/c.jpg".data)
      ∧ (mkSearchResult (coverOnlyItem (some "banana".data))).image
        = some "banana".data :=
  ⟨(c2_amended_image_cases _).2.1 rfl,
   (c2_amended_image_cases _).2.2.1 (by decide),
   (c2_amended_image_cases _).2.2.2.1 (by decide),
   (c2_amended_image_cases _).2.2.2.2 (by decide) (by decide) (by decide)⟩

/-! ### C3: chapter title -/

/-- A chapter record with an absent `title` but a present `dname`. -/
def c3Record : ChapterData :=
  { id := some "42".data, dname := some "Chapter 5".data, title := none,
    dateCreate := none, dateModify := none, urlPath := none, srcTitle := none,
    userNode := none }

/-- C3 counterexample: the current revision sets the entry's title to the raw
`title` field with **no** fallback to `dname`: for a record with `title`
absent and `dname` present the emitted entry's title is absent, not the
display name. -/
theorem c3_counterexample :
    c3Record.title = none
      ∧ c3Record.dname = some "Chapter 5".data
      ∧ (findChapters (.success (mkChaptersResponse [⟨some c3Record⟩]))).map
          ChapterDetails.title = [none] := by
  refine ⟨rfl, rfl, ?_⟩
  decide

/-- C3 amended: each emitted entry's title equals the record's `title` field
verbatim (absent when the field is absent; no fallback to `dname`). -/
theorem c3_amended_title_verbatim (l : List ChapterData) :
    (findChapters (.success (mkChaptersResponse (l.map fun d => ⟨some d⟩)))).map
        ChapterDetails.title
      = l.map ChapterData.title := by
  rw [findChapters_success, filterMap_data_map_some]
  exact withIndices_map ChapterDetails.title ChapterData.title (fun d i => rfl) l 0

/-! ### C4: server order preserved, sequential indices -/

/-- C4: when every record's `data` is present, `findChapters` emits exactly
one entry per record in the as-received order (the id sequence equals the
record id sequence — no re-sorting by parsed chapter number), and each
entry's index equals its position. -/
theorem c4_findChapters_server_order (l : List ChapterData) :
    (findChapters (.success (mkChaptersResponse (l.map fun d => ⟨some d⟩)))).map
        ChapterDetails.id = l.map ChapterData.id
      ∧ (findChapters (.success (mkChaptersResponse (l.map fun d => ⟨some d⟩)))).length
        = l.length
      ∧ ∀ i (h : i < (findChapters (.success
            (mkChaptersResponse (l.map fun d => ⟨some d⟩)))).length),
          ((findChapters (.success (mkChaptersResponse (l.map fun d => ⟨some d⟩)))).get
            ⟨i, h⟩).index = i := by
  rw [findChapters_success, filterMap_data_map_some]
  refine ⟨withIndices_map ChapterDetails.id ChapterData.id (fun d i => rfl) l 0,
    withIndices_length l 0, ?_⟩
  intro i h
  have h2 : i < l.length := by rw [← withIndices_length l 0]; exact h
  rw [withIndices_get l 0 i h h2]
  show 0 + i = i
  omega

/-- Two chapter records for the C4 witness, listed out of numeric order to
show the adapter does not re-sort. -/
def c4RecordA : ChapterData :=
  { id := some "900".data, dname := some "Ch.9".data, title := some "Nine".data,
    dateCreate := none, dateModify := none, urlPath := some "/title/1/900".data,
    srcTitle := none, userNode := none }

def c4RecordB : ChapterData :=
  { id := some "100".data, dname := some "Ch.1".data, title := some "One".data,
    dateCreate := none, dateModify := none, urlPath := some "/title/1/100".data,
    srcTitle := none, userNode := none }

/-- Witness for C4 on a two-record response (records out of numeric order),
checking the id sequence and the index at position 1. -/
theorem c4_witness :
    ((findChapters (.success (mkChaptersResponse
        ([c4RecordA, c4RecordB].map fun d => ⟨some d⟩)))).map ChapterDetails.id
      = [some "900".data, some "100".data])
      ∧ ((findChapters (.success (mkChaptersResponse
          ([c4RecordA, c4RecordB].map fun d => ⟨some d⟩)))).get
          ⟨1, by decide⟩).index = 1 := by
  constructor
  · rw [(c4_findChapters_server_order [c4RecordA, c4RecordB]).1]
    decide
  · exact (c4_findChapters_server_order [c4RecordA, c4RecordB]).2.2 1 (by decide)

/-! ### C5: failures become empty results -/

/-- C5: on any transport failure (non-success HTTP status, network error, or
JSON parse failure) each of the three operations returns the empty list; the
operations are total functions into lists, so no error reaches the caller. -/
theorem c5_failures_empty (t1 : TransportResult SearchResponse)
    (t2 : TransportResult ChaptersResponse) (t3 : TransportResult PagesResponse)
    (h1 : t1.isFailure = true) (h2 : t2.isFailure = true) (h3 : t3.isFailure = true) :
    search t1 = [] ∧ findChapters t2 = [] ∧ findChapterPages t3 = [] := by
  refine ⟨?_, ?_, ?_⟩
  · cases t1 with
    | success a => simp [TransportResult.isFailure] at h1
    | httpError s => rfl
    | networkError => rfl
    | jsonError => rfl
  · cases t2 with
    | success a => simp [TransportResult.isFailure] at h2
    | httpError s => rfl
    | networkError => rfl
    | jsonError => rfl
  · cases t3 with
    | success a => simp [TransportResult.isFailure] at h3
    | httpError s => rfl
    | networkError => rfl
    | jsonError => rfl

/-- Witness for C5 at a 404 response, a network error and a parse failure. -/
theorem c5_witness :
    search (.httpError 404) = []
      ∧ findChapters (.networkError) = []
      ∧ findChapterPages (.jsonError) = [] :=
  c5_failures_empty (.httpError 404) .networkError .jsonError rfl rfl rfl

/-! ### C6: Chapter Bonus and the unrecognised-pattern fallback -/

/-- C6: if (after volume-prefix stripping, case-insensitively) the input
matches the `Chapter Bonus` pattern, `parseChapterNumber` returns the literal
`"Chapter Bonus"`; if neither that pattern nor the chapter-number pattern is
recognised, the original input is returned unmodified. -/
theorem c6_bonus_and_fallback (s : Str)
    (h : isChapterBonus (stripVol s) = true
      ∨ (isChapterBonus (stripVol s) = false ∧ findChapterNum (stripVol s) = none)) :
    parseChapterNumber s
      = (if isChapterBonus (stripVol s) then "Chapter Bonus".data else s) := by
  rcases h with h | ⟨h1, h2⟩
  · have hne : s ≠ [] := by
      intro e
      subst e
      rw [show stripVol [] = [] from rfl] at h
      exact absurd h (by decide)
    unfold parseChapterNumber
    rw [if_neg hne]
    simp only [h, if_true]
  · by_cases hne : s = []
    · subst hne
      decide
    · unfold parseChapterNumber
      rw [if_neg hne]
      simp only [h1, Bool.false_eq_true, if_false, h2]

/-- Witness for C6: the literal example, a case-insensitive volume-prefixed
variant, and the unrecognised input `"Omake"`. -/
theorem c6_witness :
    parseChapterNumber "Chapter Bonus".data = "Chapter Bonus".data
      ∧ parseChapterNumber "vol.3 CHAPTER BONUS extra".data = "Chapter Bonus".data
      ∧ parseChapterNumber "Omake".data = "Omake".data := by
  refine ⟨?_, ?_, ?_⟩
  · calc parseChapterNumber "Chapter Bonus".data
        = (if isChapterBonus (stripVol "Chapter Bonus".data) then "Chapter Bonus".data
           else "Chapter Bonus".data) := c6_bonus_and_fallback _ (Or.inl (by decide))
      _ = "Chapter Bonus".data := by decide
  · calc parseChapterNumber "vol.3 CHAPTER BONUS extra".data
        = (if isChapterBonus (stripVol "vol.3 CHAPTER BONUS extra".data)
           then "Chapter Bonus".data else "vol.3 CHAPTER BONUS extra".data) :=
          c6_bonus_and_fallback _ (Or.inl (by decide))
      _ = "Chapter Bonus".data := by decide
  · calc parseChapterNumber "Omake".data
        = (if isChapterBonus (stripVol "Omake".data) then "Chapter Bonus".data
           else "Omake".data) := c6_bonus_and_fallback _ (Or.inr ⟨by decide, by decide⟩)
      _ = "Omake".data := by decide

/-! ### C8: page order and headers -/

/-- C8: for a server response with url list `u_0 .. u_{n-1}` the adapter
returns exactly `n` pages, the `i`-th having url `u_i`, index `i` (contiguous
ascending from 0 in server order) and the fixed request headers. -/
theorem c8_findChapterPages_order (urls : List Str) :
    (findChapterPages (.success (mkPagesResponse urls))).length = urls.length
      ∧ ∀ i (h1 : i < (findChapterPages (.success (mkPagesResponse urls))).length)
          (h2 : i < urls.length),
          (findChapterPages (.success (mkPagesResponse urls))).get ⟨i, h1⟩
            = { url := urls.get ⟨i, h2⟩, index := i, headers := DEFAULT_HEADERS } := by
  rw [findChapterPages_success]
  refine ⟨pagesFrom_length 0 urls, ?_⟩
  intro i h1 h2
  rw [pagesFrom_get urls 0 i h1 h2]
  congr 1
  omega

/-- Witness for C8 on a two-url response, checking page 1. -/
theorem c8_witness :
    (findChapterPages (.success (mkPagesResponse ["a.png".data, "b.png".data]))).length = 2
      ∧ (findChapterPages (.success (mkPagesResponse
          ["a.png".data, "b.png".data]))).get ⟨1, by decide⟩
        = { url := "b.png".data, index := 1, headers := DEFAULT_HEADERS } := by
  constructor
  · exact (c8_findChapterPages_order ["a.png".data, "b.png".data]).1
  · exact (c8_findChapterPages_order ["a.png".data, "b.png".data]).2 1 (by decide) (by decide)

/-! ### C9: absent-data items are skipped, indices stay contiguous -/

/-- C9: items whose nested `data` is absent produce no output entry in
`search` or `findChapters` (the output corresponds to the data-present items
in order), and the emitted `findChapters` indices are still `0 .. k-1` over
the emitted entries. -/
theorem c9_skip_absent_data (sitems : List SearchItem) (citems : List ChapterItem) :
    search (.success (mkSearchResponse sitems))
        = (sitems.filterMap SearchItem.data).map mkSearchResult
      ∧ findChapters (.success (mkChaptersResponse citems))
        = withIndices 0 (citems.filterMap ChapterItem.data)
      ∧ ∀ i (h : i < (findChapters (.success (mkChaptersResponse citems))).length),
          ((findChapters (.success (mkChaptersResponse citems))).get ⟨i, h⟩).index = i := by
  refine ⟨search_success sitems, findChapters_success citems, ?_⟩
  intro i
  rw [findChapters_success citems]
  intro h
  have h2 : i < (citems.filterMap ChapterItem.data).length := by
    rw [← withIndices_length (citems.filterMap ChapterItem.data) 0]
    exact h
  rw [withIndices_get _ 0 i h h2]
  show 0 + i = i
  omega

/-- A chapter record for the C9 witness. -/
def c9Record : ChapterData :=
  { id := some "55".data, dname := some "Ch.3".data, title := some "Three".data,
    dateCreate := none, dateModify := none, urlPath := none, srcTitle := none,
    userNode := none }

/-- Witness for C9: a three-item response whose middle item has absent data
yields two entries, and the entry after the skipped item has index 1. -/
theorem c9_witness :
    (findChapters (.success (mkChaptersResponse
        [⟨some c9Record⟩, ⟨none⟩, ⟨some c9Record⟩]))).length = 2
      ∧ ((findChapters (.success (mkChaptersResponse
          [⟨some c9Record⟩, ⟨none⟩, ⟨some c9Record⟩]))).get ⟨1, by decide⟩).index = 1
      ∧ search (.success (mkSearchResponse [⟨none⟩])) = [] := by
  refine ⟨?_, ?_, ?_⟩
  · rw [(c9_skip_absent_data [] [⟨some c9Record⟩, ⟨none⟩, ⟨some c9Record⟩]).2.1]
    decide
  · exact (c9_skip_absent_data [] [⟨some c9Record⟩, ⟨none⟩, ⟨some c9Record⟩]).2.2 1 (by decide)
  · rw [(c9_skip_absent_data [⟨none⟩] []).1]
    decide

/-! ### C10: zero timestamps are treated as absent -/

/-- C10: in the `findChapters` record mapping, a `dateModify` of `0` is falsy,
so `dateCreate` is used instead; and when the preferred timestamp is `0` or
absent the emitted `updatedAt` is absent rather than the epoch instant. -/
theorem c10_zero_timestamp_absent (d : ChapterData) (i : Nat) :
    (d.dateModify = some 0 → chapterTimestamp d = d.dateCreate)
      ∧ (chapterTimestamp d = none ∨ chapterTimestamp d = some 0 →
          (mkChapterDetails d i).updatedAt = none) := by
  constructor
  · intro h
    unfold chapterTimestamp numOr
    rw [h]
    simp
  · intro h
    show (match chapterTimestamp d with
      | some ts => if ts = 0 then none else some (ts * 1000)
      | none => none) = none
    rcases h with h | h <;> simp [h]

/-- Chapter records for the C10 witness. -/
def c10RecordA : ChapterData :=
  { id := none, dname := none, title := none, dateCreate := some 7,
    dateModify := some 0, urlPath := none, srcTitle := none, userNode := none }

def c10RecordB : ChapterData :=
  { id := none, dname := none, title := none, dateCreate := some 0,
    dateModify := none, urlPath := none, srcTitle := none, userNode := none }

/-- Witness for C10: `dateModify = 0` falls back to `dateCreate`, and a
preferred value of `0` yields an absent `updatedAt`. -/
theorem c10_witness :
    chapterTimestamp c10RecordA = c10RecordA.dateCreate
      ∧ (mkChapterDetails c10RecordB 0).updatedAt = none :=
  ⟨(c10_zero_timestamp_absent c10RecordA 0).1 rfl,
   (c10_zero_timestamp_absent c10RecordB 0).2 (Or.inr rfl)⟩

example : parseChapterNumber "Vol.02 Chapter 003".data = "3".data := by decide
example : parseChapterNumber "Chapter 1.50".data = "1.5".data := by decide
example : jsRenderNum "0.5".data = "0.5".data := by decide
example : jsRenderNum "2.50".data = "2.5".data := by decide
example : jsRenderNum "0.1".data = "0.1".data := by decide
example : jsRenderNum "00.100".data = "0.1".data := by decide
example : jsRenderNum "123.456".data = "123.456".data := by decide
example : jsRenderNum "1.00000000000000001".data = "1".data := by decide
example : jsRenderNum "0.0000001".data = "1e-7".data := by decide
example : parseChapterNumber "Chapter Bonus".data = "Chapter Bonus".data := by decide
example : parseChapterNumber "vol.3 CHAPTER BONUS".data = "Chapter Bonus".data := by decide
example : parseChapterNumber "Omake".data = "Omake".data := by decide
example : parseChapterNumber "Vol.1 Ch.7".data = "7".data := by decide
example : parseChapterNumber [] = [] := by decide
example : buildUrl "/covers/a.png".data = "https://mangapark.io/covers/a.png".data := by decide
example : buildUrl "banana".data = "banana".data := by decide

end Mangapark
